import Mathlib

/-!
Verification of the IngenuitySmith iterative code-synthesis loop
(`src/v1/agents.py`, `src/v1/agentic_framework.py`, `src/v1/instantiator.py`).

Python text values are embedded as `List Char`; the mutable `AgentState`
TypedDict is a structure; the LLM "completion port" and the Docker sandbox are
external collaborators, embedded as behaviour oracles consumed by the agent
step functions.  Empty-dict truthiness of `execution_results` is embedded as
`Option ExecutionResult` (`none` models `{}`).
-/

/-! ## Python text primitives -/

/-- The six ASCII whitespace characters removed by Python's `str.strip()`. -/
def isPySpace (c : Char) : Bool :=
  c == ' ' || c == '\t' || c == '\n' || c == '\r' || c == Char.ofNat 11 || c == Char.ofNat 12

/-- Leading-whitespace removal (the left half of `str.strip()`). -/
def stripLeft (l : List Char) : List Char := l.dropWhile isPySpace

/-- Python `str.strip()`: drop leading whitespace, then trailing whitespace. -/
def strip (l : List Char) : List Char := (stripLeft ((stripLeft l).reverse)).reverse

/-- Split a string at the first occurrence of `sep`, returning the part before
the occurrence and the part after it, or `none` when `sep` does not occur.
`some (a, b)` means the input is `a ++ sep ++ b` with no occurrence inside `a`
or straddling `a`'s end. -/
def splitFirst (sep : List Char) : List Char → Option (List Char × List Char)
  | [] => if sep.isEmpty then some ([], []) else none
  | c :: t =>
    if sep.isPrefixOf (c :: t) then some ([], (c :: t).drop sep.length)
    else (splitFirst sep t).map (fun pq => (c :: pq.1, pq.2))

/-- Python's substring test `sep in s`. -/
def containsSub (sep s : List Char) : Bool := (splitFirst sep s).isSome

/-- Everything after the first occurrence of `sep` (Python `s.split(sep)[1]`
up to the next occurrence, composed below with `upToFirst`). -/
def afterFirst (sep s : List Char) : List Char :=
  match splitFirst sep s with
  | some pq => pq.2
  | none => s

/-- Everything before the first occurrence of `sep` (Python `s.split(sep)[0]`;
the whole string when `sep` does not occur). -/
def upToFirst (sep s : List Char) : List Char :=
  match splitFirst sep s with
  | some pq => pq.1
  | none => s

/-- Python `str.lower()` (ASCII model). -/
def lowerStr (l : List Char) : List Char := l.map Char.toLower

/-! ## The data model (`AgentState` TypedDict of `src/v1/instantiator.py`) -/

/-- The `status` string field; the source only ever assigns these values. -/
inductive Status
  | starting
  | in_progress
  | completed
  | failed
deriving DecidableEq, Repr

/-- The `next_agent` string field; the source only ever assigns these values
(`"end"` is written `end_`). -/
inductive NextAgent
  | orchestrator
  | coder
  | runner
  | prose
  | end_
deriving DecidableEq, Repr

/-- The `execution_results` dict as built by `RunnerAgent.__call__`. -/
structure ExecutionResult where
  status_code : Int
  output : List Char
  timestamp : Nat
deriving DecidableEq, Repr

/-- The `AgentState` TypedDict (the `messages` field is never read or written
by the agents and is omitted).  An absent / empty `execution_results` dict is
`none`. -/
structure AgentState where
  original_request : List Char
  current_code : List Char
  execution_results : Option ExecutionResult
  prose_feedback : List Char
  iteration_count : Nat
  max_iterations : Nat
  status : Status
  next_agent : NextAgent
  errors : List (List Char)
deriving DecidableEq, Repr

/-! ## Orchestrator (`OrchestratorAgent.__call__`, src/v1/agents.py:19-56) -/

/-- The substring test `"issues" in feedback.lower()` of routing rule 6. -/
def containsIssues (l : List Char) : Bool := containsSub ("issues".toList) (lowerStr l)

/-- Python `state["execution_results"] and state["execution_results"].get("status_code") != 0`:
false for an absent result, otherwise the stored exit status compared with 0. -/
def execFailed : Option ExecutionResult → Bool
  | none => false
  | some r => r.status_code != 0

/-- `OrchestratorAgent.__call__` of src/v1/agents.py:19-56 (identical in
src/v1/agentic_framework.py:144-181): the if/elif decision chain, translated
branch by branch. -/
def OrchestratorAgent.call (s : AgentState) : AgentState :=
  if s.iteration_count = 0 then
    { s with next_agent := .coder, status := .in_progress, iteration_count := 1 }
  else if s.max_iterations ≤ s.iteration_count then
    { s with status := .completed, next_agent := .end_ }
  else if s.current_code ≠ [] ∧ s.execution_results = none then
    { s with next_agent := .runner }
  else if execFailed s.execution_results then
    { s with next_agent := .coder }
  else if s.execution_results ≠ none ∧ s.prose_feedback = [] then
    { s with next_agent := .prose }
  else if s.prose_feedback ≠ [] ∧ containsIssues s.prose_feedback then
    { s with next_agent := .coder }
  else
    { s with status := .completed, next_agent := .end_ }

/-- The exit status stored in an optional execution result. -/
def statusCodeOf (o : Option ExecutionResult) : Option Int := o.map (fun r => r.status_code)

/-- Modelled from the spec: the seven-rule transition table of spec §4.1,
written rule for rule in the spec's own terms (in particular rule 5 carries
the explicit `exitStatus == 0` condition), evaluated in order with first
match winning. -/
def decideSpecTable (s : AgentState) : AgentState :=
  if s.iteration_count = 0 then
    { s with status := .in_progress, iteration_count := 1, next_agent := .coder }
  else if s.max_iterations ≤ s.iteration_count then
    { s with status := .completed, next_agent := .end_ }
  else if s.current_code ≠ [] ∧ s.execution_results = none then
    { s with next_agent := .runner }
  else if s.execution_results ≠ none ∧ statusCodeOf s.execution_results ≠ some 0 then
    { s with next_agent := .coder }
  else if statusCodeOf s.execution_results = some 0 ∧ s.prose_feedback = [] then
    { s with next_agent := .prose }
  else if s.prose_feedback ≠ [] ∧ containsIssues s.prose_feedback then
    { s with next_agent := .coder }
  else
    { s with status := .completed, next_agent := .end_ }

/-! ## Code extraction and the Coder Agent (`CoderAgent.__call__`, src/v1/agents.py:114-135) -/

/-- The opening of a python-tagged markdown fence. -/
def pyFence : List Char := "```python".toList

/-- A markdown fence marker. -/
def fenceMark : List Char := "```".toList

/-- The code post-processing of `CoderAgent.__call__`:
`new_code = response.content.strip()`, then
`new_code.split("```python")[1].split("```")[0].strip()` when `"```python"`
occurs, else `new_code.split("```")[1].split("```")[0].strip()` when `"```"`
occurs, else the stripped text itself.  (`split(sep)[1]` is the text after the
first occurrence of `sep` up to the next occurrence of `sep`, hence
`upToFirst _ (afterFirst _ _)`.) -/
def extractCode (completion : List Char) : List Char :=
  let new_code := strip completion
  if containsSub pyFence new_code then
    strip (upToFirst fenceMark (afterFirst pyFence new_code))
  else if containsSub fenceMark new_code then
    strip (upToFirst fenceMark (afterFirst fenceMark new_code))
  else new_code

/-- One behaviour of the completion provider backing the Coder Agent:
`ok completion` is a successful `self.model.invoke` returning that text,
`fail msg` is an exception raised by the call. -/
inductive CoderBeh
  | ok (completion : List Char)
  | fail (msg : List Char)
deriving DecidableEq, Repr

/-- The `"Coder error: {e}"` entry appended on a coder failure. -/
def coderErrorMsg (msg : List Char) : List Char := "Coder error: ".toList ++ msg

/-- `CoderAgent.__call__` of src/v1/agents.py:114-135: on success the new code
replaces `current_code`, `execution_results` and `prose_feedback` are cleared
and `iteration_count` is incremented; on a provider exception only `errors`
grows. -/
def CoderAgent.call (b : CoderBeh) (s : AgentState) : AgentState :=
  match b with
  | .ok completion =>
    { s with current_code := extractCode completion,
             execution_results := none,
             prose_feedback := [],
             iteration_count := s.iteration_count + 1 }
  | .fail msg => { s with errors := s.errors ++ [coderErrorMsg msg] }

/-! ## The Runner Agent (`RunnerAgent.__call__`, src/v1/agents.py:144-215) -/

/-- One behaviour of the Docker sandbox for one runner invocation:
`runOk` is a completed execution (`container.wait()` returned, with the
program's exit status and decoded logs); `infraFail` is an exception raised by
the infrastructure, with `afterWrite` recording whether it was raised after
the script file had already been materialized on the host (e.g. by
`containers.run`/`wait`/`logs`) or before (e.g. by `mkdir`/`open`). -/
inductive RunnerBeh
  | runOk (status_code : Int) (output : List Char) (timestamp : Nat)
  | infraFail (afterWrite : Bool) (msg : List Char) (timestamp : Nat)
deriving DecidableEq, Repr

/-- The `"Runner error: {e}"` text used both as an `errors` entry and as the
synthetic result's output. -/
def runnerErrorMsg (msg : List Char) : List Char := "Runner error: ".toList ++ msg

/-- The `"No code provided to runner"` entry of the empty-code early return. -/
def noCodeMsg : List Char := "No code provided to runner".toList

/-- `RunnerAgent.__call__` of src/v1/agents.py:144-215, paired with a flag
telling whether the materialized script file still exists on the host when the
call returns.  The source's cleanup (`host_script_path.unlink()`) is the last
statement inside the `try` block, so it runs only when execution completed;
the `except` path appends to `errors` and installs the synthetic
`status_code = -1` result without deleting the script. -/
def RunnerAgent.callFS (b : RunnerBeh) (s : AgentState) : AgentState × Bool :=
  if s.current_code.isEmpty then
    ({ s with errors := s.errors ++ [noCodeMsg] }, false)
  else
    match b with
    | .runOk code out ts =>
      ({ s with execution_results := some ⟨code, out, ts⟩ }, false)
    | .infraFail afterWrite msg ts =>
      ({ s with errors := s.errors ++ [runnerErrorMsg msg],
                execution_results := some ⟨-1, runnerErrorMsg msg, ts⟩ }, afterWrite)

/-- The state component of a runner invocation. -/
def RunnerAgent.call (b : RunnerBeh) (s : AgentState) : AgentState :=
  (RunnerAgent.callFS b s).1

/-! ## The Prose (review) Agent (`ProseAgent.__call__`, src/v1/agents.py:283-308) -/

/-- One behaviour of the completion provider backing the Prose Agent. -/
inductive ProseBeh
  | ok (completion : List Char)
  | fail (msg : List Char)
deriving DecidableEq, Repr

/-- The `"Prose error: {e}"` entry appended on a prose failure. -/
def proseErrorMsg (msg : List Char) : List Char := "Prose error: ".toList ++ msg

/-- The sentinel feedback installed when the review completion call raises. -/
def proseSentinel : List Char := "Error during prose review".toList

/-- `ProseAgent.__call__` of src/v1/agents.py:283-308: with no code it returns
the state unchanged; on success the stripped completion becomes
`prose_feedback`; on a provider exception `errors` grows and `prose_feedback`
is set to the sentinel string. -/
def ProseAgent.call (b : ProseBeh) (s : AgentState) : AgentState :=
  if s.current_code.isEmpty then s
  else
    match b with
    | .ok completion => { s with prose_feedback := strip completion }
    | .fail msg =>
      { s with errors := s.errors ++ [proseErrorMsg msg],
               prose_feedback := proseSentinel }

/-! ## Runner Agent artifact cleanup and failure reporting (claims C6, C7, C10) -/

/-- A state with some code in it, used as the concrete input of the cleanup
counterexample. -/
def lateFailState : AgentState :=
  { original_request := "r".toList, current_code := "print(1)".toList,
    execution_results := none, prose_feedback := [], iteration_count := 2,
    max_iterations := 5, status := .in_progress, next_agent := .runner,
    errors := [] }

/-- A post-review state with passing execution, used to witness claim C8. -/
def reviewedState : AgentState :=
  { original_request := "r".toList, current_code := "x".toList,
    execution_results := some ⟨0, "ok".toList, 4⟩, prose_feedback := [],
    iteration_count := 1, max_iterations := 2, status := .in_progress,
    next_agent := .prose, errors := [] }

/-! ## Routing with code present and no execution result (claim C9) -/

/-- The state of claim C9 instantiated with `iterationLimit = 1`: iteration
count `1`, code `"x"`, no execution result. -/
def limitOneState : AgentState :=
  { original_request := "r".toList, current_code := "x".toList,
    execution_results := none, prose_feedback := [], iteration_count := 1,
    max_iterations := 1, status := .in_progress, next_agent := .coder,
    errors := [] }

/-! ## The development session (`AgenticDevelopmentFramework.develop`, src/v1/instantiator.py:189-258)

The LangGraph wiring enters at the orchestrator, routes on `next_agent`
(`route_next_agent`, src/v1/infrastructure.py:49-54) to the coder, runner or
prose node — or to END — and every agent node returns to the orchestrator.
The external collaborators are one behaviour oracle per agent, indexed by how
many times that agent has been invoked so far. -/

/-- A node of the compiled LangGraph workflow (END is `done`). -/
inductive Node
  | orchestrator
  | coder
  | runner
  | prose
  | done
deriving DecidableEq, Repr

/-- `route_next_agent`: the conditional-edge mapping from the orchestrator's
`next_agent` to the node run next. -/
def nodeOf : NextAgent → Node
  | .orchestrator => .orchestrator
  | .coder => .coder
  | .runner => .runner
  | .prose => .prose
  | .end_ => .done

/-- Behaviours of the external collaborators — the completion providers of the
coder and prose agents and the Docker sandbox — for each successive
invocation. -/
structure Oracles where
  coder : Nat → CoderBeh
  runner : Nat → RunnerBeh
  prose : Nat → ProseBeh

/-- A snapshot of one `develop` run: the threaded state, the node about to
run, and how often each agent has been invoked (`coderSuccesses` counts the
coder invocations whose completion call did not fail). -/
structure Session where
  st : AgentState
  node : Node
  coderCalls : Nat
  coderSuccesses : Nat
  runnerCalls : Nat
  proseCalls : Nat
deriving DecidableEq, Repr

/-- The initial state seeded by `develop` (src/v1/instantiator.py:193-205). -/
def initState (req : List Char) (limit : Nat) : AgentState :=
  { original_request := req, current_code := [], execution_results := none,
    prose_feedback := [], iteration_count := 0, max_iterations := limit,
    status := .starting, next_agent := .orchestrator, errors := [] }

/-- A session about to execute its entry node. -/
def initSession (req : List Char) (limit : Nat) : Session :=
  ⟨initState req limit, .orchestrator, 0, 0, 0, 0⟩

/-- How a coder behaviour contributes to the success count. -/
def coderSuccessInc : CoderBeh → Nat
  | .ok _ => 1
  | .fail _ => 0

/-- One supergraph step of the compiled workflow: run the current node on the
threaded state and move along the graph's edges. -/
def step (o : Oracles) (ss : Session) : Session :=
  match ss.node with
  | .done => ss
  | .orchestrator =>
    let s := OrchestratorAgent.call ss.st
    { ss with st := s, node := nodeOf s.next_agent }
  | .coder =>
    let b := o.coder ss.coderCalls
    { ss with st := CoderAgent.call b ss.st, node := .orchestrator,
              coderCalls := ss.coderCalls + 1,
              coderSuccesses := ss.coderSuccesses + coderSuccessInc b }
  | .runner =>
    { ss with st := RunnerAgent.call (o.runner ss.runnerCalls) ss.st,
              node := .orchestrator, runnerCalls := ss.runnerCalls + 1 }
  | .prose =>
    { ss with st := ProseAgent.call (o.prose ss.proseCalls) ss.st,
              node := .orchestrator, proseCalls := ss.proseCalls + 1 }

/-- The session after `n` supergraph steps of `develop request limit`. -/
def runN (o : Oracles) (req : List Char) (limit : Nat) : Nat → Session
  | 0 => initSession req limit
  | n + 1 => step o (runN o req limit n)

/-- `develop` reaches END after finitely many steps. -/
def DevelopTerminates (o : Oracles) (req : List Char) (limit : Nat) : Prop :=
  ∃ n, (runN o req limit n).node = .done

/-- Every prefix of the run invokes the Code Agent at most `limit` times. -/
def CoderCallsBounded (o : Oracles) (req : List Char) (limit : Nat) : Prop :=
  ∀ n, (runN o req limit n).coderCalls ≤ limit

/-- Collaborator behaviour under which `develop` loops: the first coder call
succeeds with bare code `"x"`, every later one fails; every execution exits
with status 1; reviews approve. -/
def failingOracles : Oracles :=
  ⟨fun n => if n = 0 then .ok ("x".toList) else .fail ("provider down".toList),
   fun _ => .runOk 1 ("Traceback".toList) 0,
   fun _ => .ok ("APPROVED".toList)⟩

/-- The run invariant behind the iteration budget: the budget is constant, a
non-zero iteration count is exactly one more than the number of successful
coder calls, the coder node is only ever entered from the bootstrap rule or
below the budget, and the success count never exceeds the budget. -/
def SInv (limit : Nat) (ss : Session) : Prop :=
  ss.st.max_iterations = limit ∧
  ss.coderSuccesses ≤ limit ∧
  (ss.st.iteration_count = 0 → ss.coderSuccesses = 0) ∧
  (ss.st.iteration_count ≠ 0 → ss.st.iteration_count = ss.coderSuccesses + 1) ∧
  (ss.node = .coder → 1 ≤ ss.st.iteration_count ∧
    (ss.st.iteration_count = 1 ∨ ss.st.iteration_count < limit))

/-- Collaborator behaviour with a steadily succeeding coder, used to witness
the amended bound. -/
def steadyOracles : Oracles :=
  ⟨fun _ => .ok ("print(1)".toList),
   fun _ => .runOk 0 ("ok".toList) 0,
   fun _ => .ok ("APPROVED: fine".toList)⟩

/-! ## Fence extraction (claim C4) -/

/-- The backtick character. -/
def btChar : Char := Char.ofNat 96

/-- No backtick occurs in the text. -/
def btFree (l : List Char) : Prop := ∀ c ∈ l, c ≠ btChar

/-- The example completion of the spec's fence-extraction test. -/
def exampleCompletion : List Char :=
  "Here is the fix:\n```python\nprint(1)\n```\nLet me know".toList

/-- A completion whose first fenced block is a plain fence and whose second is
a python-tagged fence. -/
def mixedFenceCompletion : List Char :=
  "```\nfoo\n```\nsee\n```python\nbar\n```".toList

/-- Modelled from the spec: the contents of the first fenced code block of the
completion — the text between the first pair of fence markers, with the
opening fence's info-string line (e.g. a `python` language tag) removed — or
`none` when no complete fenced block exists. -/
def firstFencedBlockContents (completion : List Char) : Option (List Char) :=
  match splitFirst fenceMark (strip completion) with
  | none => none
  | some pq =>
    match splitFirst fenceMark pq.2 with
    | none => none
    | some qr => some (strip (afterFirst ("\n".toList) qr.1))

/-- Claim C1: the Orchestrator's decision function implements the seven-rule
transition table of the spec, evaluated in order with first match winning,
for every input state. -/
theorem orchestrator_implements_transition_table (s : AgentState) :
    OrchestratorAgent.call s = decideSpecTable s := by
  unfold OrchestratorAgent.call decideSpecTable
  rcases hE : s.execution_results with _ | r <;>
    simp only [execFailed, statusCodeOf, hE, Option.map_some', Option.map_none'] <;>
    split_ifs <;>
    simp_all [bne_iff_ne]

/-! ## Coder Agent postconditions (claims C3 and C5) -/

/-- Claim C3: after every successful Code-Agent call the state holds the newly
extracted code, an empty execution result, empty review feedback, and an
iteration count one above the prior one — for all prior state values. -/
theorem coder_success_replaces_code_and_clears_state (s : AgentState) (c : List Char) :
    (CoderAgent.call (.ok c) s).current_code = extractCode c ∧
    (CoderAgent.call (.ok c) s).execution_results = none ∧
    (CoderAgent.call (.ok c) s).prose_feedback = [] ∧
    (CoderAgent.call (.ok c) s).iteration_count = s.iteration_count + 1 :=
  ⟨rfl, rfl, rfl, rfl⟩

/-- Claim C5: when the coder's completion call fails, the error is appended to
`errors` and `current_code`, `iteration_count`, `execution_results` and
`prose_feedback` are all left unchanged, for every prior state. -/
theorem coder_failure_only_appends_error (s : AgentState) (msg : List Char) :
    (CoderAgent.call (.fail msg) s).errors = s.errors ++ [coderErrorMsg msg] ∧
    (CoderAgent.call (.fail msg) s).current_code = s.current_code ∧
    (CoderAgent.call (.fail msg) s).iteration_count = s.iteration_count ∧
    (CoderAgent.call (.fail msg) s).execution_results = s.execution_results ∧
    (CoderAgent.call (.fail msg) s).prose_feedback = s.prose_feedback :=
  ⟨rfl, rfl, rfl, rfl, rfl⟩

/-- Counterexample to claim C6: when the sandbox raises after the script has
been materialized (e.g. `containers.run` fails), the runner's `except` path
performs no cleanup and the script artifact is still on disk when the call
returns. -/
theorem runner_skips_cleanup_on_late_infra_failure :
    (RunnerAgent.callFS (.infraFail true ("docker daemon unreachable".toList) 7) lateFailState).2
      = true := rfl

/-- Claim C6 (amended): the materialized script is removed whenever execution
completes — with any exit status — and no artifact is left when the
infrastructure fails before the script is written; but an execution-layer
error raised after materialization skips the cleanup, which sits at the end of
the `try` block rather than in a `finally`. -/
theorem runner_cleanup_on_completed_execution (s : AgentState) (code : Int)
    (out : List Char) (ts : Nat) (msg : List Char) (ts2 : Nat) :
    (RunnerAgent.callFS (.runOk code out ts) s).2 = false ∧
    (RunnerAgent.callFS (.infraFail false msg ts2) s).2 = false := by
  unfold RunnerAgent.callFS
  constructor <;> split <;> rfl

/-- Claim C7: whenever the sandbox infrastructure fails on a state whose code
is non-empty (with empty code the runner returns before touching the
infrastructure), the runner installs a synthetic result with exit status `-1`
and a diagnostic output, and appends the same diagnostic to `errors`. -/
theorem runner_infra_failure_reports_minus_one (s : AgentState) (aw : Bool)
    (msg : List Char) (ts : Nat) (h : s.current_code ≠ []) :
    (RunnerAgent.call (.infraFail aw msg ts) s).execution_results
        = some ⟨-1, runnerErrorMsg msg, ts⟩ ∧
    (RunnerAgent.call (.infraFail aw msg ts) s).errors
        = s.errors ++ [runnerErrorMsg msg] := by
  unfold RunnerAgent.call RunnerAgent.callFS
  simp [List.isEmpty_iff, h]

/-- Claim C7 witness: the infra-failure postcondition at a concrete state. -/
theorem runner_infra_failure_reports_minus_one_witness :
    lateFailState.current_code ≠ [] ∧
    (RunnerAgent.call (.infraFail true ("boom".toList) 3) lateFailState).execution_results
        = some ⟨-1, runnerErrorMsg ("boom".toList), 3⟩ :=
  ⟨by decide, (runner_infra_failure_reports_minus_one lateFailState true ("boom".toList) 3
      (by decide)).1⟩

/-- Claim C10: invoked on a state with empty code, the runner appends
`"No code provided to runner"` to `errors` and changes nothing else — in
particular it installs no synthetic execution result. -/
theorem runner_empty_code_only_logs (s : AgentState) (b : RunnerBeh)
    (h : s.current_code = []) :
    RunnerAgent.callFS b s = ({ s with errors := s.errors ++ [noCodeMsg] }, false) := by
  unfold RunnerAgent.callFS
  simp [h]

/-- Claim C10 witness: the empty-code early return at a concrete state. -/
theorem runner_empty_code_only_logs_witness :
    RunnerAgent.callFS (.runOk 0 [] 0) { lateFailState with current_code := [] }
      = ({ lateFailState with
           current_code := [],
           errors := lateFailState.errors ++ [noCodeMsg] }, false) :=
  runner_empty_code_only_logs { lateFailState with current_code := [] } (.runOk 0 [] 0) rfl

/-! ## Review failure treated as approval (claim C8) -/

/-- Claim C8: when the review completion call fails (on a state that has code
to review), the error is appended to `errors` and `prose_feedback` becomes the
fixed sentinel; the sentinel is non-empty and does not contain the
case-insensitive `"issues"` marker, so the next orchestrator decision on a
state with a present execution result, exit status `0` and an iteration count
in `[1, iterationLimit)` completes the session (a failed review is treated as
approval). -/
theorem prose_failure_treated_as_approval (s : AgentState) (msg : List Char)
    (h : s.current_code ≠ []) :
    (ProseAgent.call (.fail msg) s).prose_feedback = proseSentinel ∧
    (ProseAgent.call (.fail msg) s).errors = s.errors ++ [proseErrorMsg msg] ∧
    proseSentinel ≠ [] ∧
    containsIssues proseSentinel = false ∧
    (∀ r : ExecutionResult, s.execution_results = some r → r.status_code = 0 →
      1 ≤ s.iteration_count → s.iteration_count < s.max_iterations →
      (OrchestratorAgent.call (ProseAgent.call (.fail msg) s)).status = .completed ∧
      (OrchestratorAgent.call (ProseAgent.call (.fail msg) s)).next_agent = .end_) := by
  have hcall : ProseAgent.call (.fail msg) s
      = { s with errors := s.errors ++ [proseErrorMsg msg], prose_feedback := proseSentinel } := by
    unfold ProseAgent.call
    simp [List.isEmpty_iff, h]
  refine ⟨by rw [hcall], by rw [hcall], by decide, by decide, ?_⟩
  intro r hr hr0 h1 h2
  rw [hcall]
  unfold OrchestratorAgent.call
  have hs : proseSentinel ≠ [] := by decide
  have hi : containsIssues proseSentinel = false := by decide
  have hne : s.iteration_count ≠ 0 := by omega
  have hlt : ¬ s.max_iterations ≤ s.iteration_count := by omega
  constructor <;> simp [hr, hr0, execFailed, hs, hi, hne, hlt]

/-- Claim C8 witness: a failed review on a concrete passing state makes the
next orchestrator decision terminate the session. -/
theorem prose_failure_treated_as_approval_witness :
    (OrchestratorAgent.call (ProseAgent.call (.fail ("network down".toList)) reviewedState)).status
        = .completed ∧
    (OrchestratorAgent.call (ProseAgent.call (.fail ("network down".toList)) reviewedState)).next_agent
        = .end_ :=
  (prose_failure_treated_as_approval reviewedState ("network down".toList)
      (by decide)).2.2.2.2 ⟨0, "ok".toList, 4⟩ rfl rfl (by decide) (by decide)

/-- Counterexample to claim C9: with `iterationCount = 1`, `code = "x"` and no
execution result but `iterationLimit = 1`, rule 2 fires before rule 3 and the
orchestrator ends the session instead of routing to the runner — so the
claimed independence from `iterationLimit` fails. -/
theorem routing_not_independent_of_limit :
    (OrchestratorAgent.call limitOneState).next_agent = .end_ ∧
    (OrchestratorAgent.call limitOneState).next_agent ≠ .runner ∧
    (OrchestratorAgent.call limitOneState).status = .completed := by decide

/-- Claim C9 (amended): for every state with `iterationCount = 1`,
`code = "x"`, no execution result, and `iterationCount` still below
`iterationLimit` (i.e. `iterationLimit > 1`), the orchestrator routes to the
runner regardless of the values of all other fields. -/
theorem routing_to_runner_below_limit (s : AgentState)
    (h1 : s.iteration_count = 1) (h2 : s.current_code = "x".toList)
    (h3 : s.execution_results = none) (h4 : 1 < s.max_iterations) :
    (OrchestratorAgent.call s).next_agent = .runner := by
  unfold OrchestratorAgent.call
  have hlt : ¬ s.max_iterations ≤ 1 := by omega
  simp [h1, h2, h3, hlt]

/-- Claim C9 witness: the amended routing rule at a concrete state. -/
theorem routing_to_runner_below_limit_witness :
    (OrchestratorAgent.call { limitOneState with max_iterations := 4 }).next_agent
      = .runner :=
  routing_to_runner_below_limit { limitOneState with max_iterations := 4 }
    rfl rfl rfl (by decide)

/-- Counterexample to claim C2: with `iterationLimit = 3` and a coder whose
completion call fails from the second invocation on, the failed calls leave
the state unchanged, rule 4 keeps routing back to the coder, and after ten
supergraph steps the Code Agent has already been invoked four times — more
than `iterationLimit` — with the session still not terminated. -/
theorem develop_coder_calls_exceed_limit :
    ¬ (DevelopTerminates failingOracles ("task".toList) 3 ∧
       CoderCallsBounded failingOracles ("task".toList) 3) := by
  intro h
  have h10 := h.2 10
  have hc : (runN failingOracles ("task".toList) 3 10).coderCalls = 4 := by decide
  omega

/-- The orchestrator never changes the iteration budget. -/
theorem OrchestratorAgent.call_max (s : AgentState) :
    (OrchestratorAgent.call s).max_iterations = s.max_iterations := by
  unfold OrchestratorAgent.call
  split_ifs <;> rfl

/-- The orchestrator touches the iteration count only in the bootstrap rule. -/
theorem OrchestratorAgent.call_count (s : AgentState) :
    (OrchestratorAgent.call s).iteration_count
      = if s.iteration_count = 0 then 1 else s.iteration_count := by
  unfold OrchestratorAgent.call
  split_ifs <;> rfl

/-- The orchestrator routes to the coder only from the bootstrap rule or with
the iteration count strictly below the budget. -/
theorem OrchestratorAgent.call_next_coder (s : AgentState)
    (h : (OrchestratorAgent.call s).next_agent = .coder) :
    s.iteration_count = 0 ∨ (s.iteration_count ≠ 0 ∧ s.iteration_count < s.max_iterations) := by
  unfold OrchestratorAgent.call at h
  split_ifs at h with h1 h2 <;> simp_all

/-- The runner changes neither the iteration count nor the budget. -/
theorem runner_call_preserves_count_max (b : RunnerBeh) (s : AgentState) :
    (RunnerAgent.call b s).iteration_count = s.iteration_count ∧
    (RunnerAgent.call b s).max_iterations = s.max_iterations := by
  unfold RunnerAgent.call RunnerAgent.callFS
  split
  · exact ⟨rfl, rfl⟩
  · cases b <;> exact ⟨rfl, rfl⟩

/-- The prose agent changes neither the iteration count nor the budget. -/
theorem prose_call_preserves_count_max (b : ProseBeh) (s : AgentState) :
    (ProseAgent.call b s).iteration_count = s.iteration_count ∧
    (ProseAgent.call b s).max_iterations = s.max_iterations := by
  unfold ProseAgent.call
  split
  · exact ⟨rfl, rfl⟩
  · cases b <;> exact ⟨rfl, rfl⟩

/-- Only `NextAgent.coder` is routed to the coder node. -/
theorem nodeOf_eq_coder (x : NextAgent) (h : nodeOf x = Node.coder) : x = .coder := by
  cases x <;> simp only [nodeOf] at h <;> first | rfl | cases h

/-- One supergraph step preserves the run invariant. -/
theorem sinv_step (o : Oracles) (limit : Nat) (hl : 1 ≤ limit) (ss : Session)
    (h : SInv limit ss) : SInv limit (step o ss) := by
  obtain ⟨st, node, cc, cs, rc, pc⟩ := ss
  obtain ⟨hmax, hsucc, hzero, hpos, hcoder⟩ := h
  dsimp only at hmax hsucc hzero hpos hcoder
  cases node with
  | done => exact ⟨hmax, hsucc, hzero, hpos, fun hc => by cases hc⟩
  | orchestrator =>
    dsimp only [step, SInv]
    refine ⟨?_, hsucc, ?_, ?_, ?_⟩
    · rw [OrchestratorAgent.call_max]; exact hmax
    · intro h0
      rw [OrchestratorAgent.call_count] at h0
      by_cases hc0 : st.iteration_count = 0
      · rw [if_pos hc0] at h0; omega
      · rw [if_neg hc0] at h0; exact absurd h0 hc0
    · intro hne
      rw [OrchestratorAgent.call_count] at hne ⊢
      by_cases hc0 : st.iteration_count = 0
      · rw [if_pos hc0] at hne ⊢
        have := hzero hc0; omega
      · rw [if_neg hc0] at hne ⊢
        exact hpos hc0
    · intro hcn
      have hna : (OrchestratorAgent.call st).next_agent = .coder :=
        nodeOf_eq_coder _ hcn
      rcases OrchestratorAgent.call_next_coder st hna with h0 | ⟨hne, hlt⟩
      · rw [OrchestratorAgent.call_count, if_pos h0]
        exact ⟨Nat.le_refl 1, Or.inl rfl⟩
      · rw [OrchestratorAgent.call_count, if_neg hne]
        exact ⟨by omega, Or.inr (hmax ▸ hlt)⟩
  | coder =>
    obtain ⟨hc1, hc2⟩ := hcoder rfl
    have hp : st.iteration_count = cs + 1 := hpos (by omega)
    dsimp only [step, SInv]
    cases hb : o.coder cc with
    | ok c =>
      dsimp only [CoderAgent.call, coderSuccessInc]
      refine ⟨hmax, ?_, ?_, ?_, fun hc => by cases hc⟩
      · rcases hc2 with h2 | h2 <;> omega
      · intro h0; omega
      · intro hne; omega
    | fail m =>
      dsimp only [CoderAgent.call, coderSuccessInc]
      refine ⟨hmax, by omega, ?_, ?_, fun hc => by cases hc⟩
      · intro h0; omega
      · intro hne; omega
  | runner =>
    dsimp only [step, SInv]
    obtain ⟨hcnt, hmx⟩ := runner_call_preserves_count_max (o.runner rc) st
    refine ⟨by rw [hmx]; exact hmax, hsucc, ?_, ?_, fun hc => by cases hc⟩
    · intro h0; rw [hcnt] at h0; exact hzero h0
    · intro hne; rw [hcnt] at hne ⊢; exact hpos hne
  | prose =>
    dsimp only [step, SInv]
    obtain ⟨hcnt, hmx⟩ := prose_call_preserves_count_max (o.prose pc) st
    refine ⟨by rw [hmx]; exact hmax, hsucc, ?_, ?_, fun hc => by cases hc⟩
    · intro h0; rw [hcnt] at h0; exact hzero h0
    · intro hne; rw [hcnt] at hne ⊢; exact hpos hne

/-- The run invariant holds after any number of steps. -/
theorem sinv_runN (o : Oracles) (req : List Char) (limit : Nat) (hl : 1 ≤ limit) :
    ∀ n, SInv limit (runN o req limit n) := by
  intro n
  induction n with
  | zero =>
    exact ⟨rfl, Nat.zero_le _, fun _ => rfl, fun h => absurd rfl h, fun hc => by cases hc⟩
  | succ n ih => exact sinv_step o limit hl _ ih

/-- Claim C2 (amended): for every iteration limit at least 1 and every
behaviour of the completion providers and the sandbox, at every point of the
run the number of successful Code-Agent invocations is at most the limit.
(The total number of invocations, failed ones included, is unbounded, and the
run need not terminate — see the counterexample above: a failed coder call
leaves the state unchanged and the orchestrator re-routes to the coder
forever.) -/
theorem develop_successful_coder_calls_le_limit (o : Oracles) (req : List Char)
    (limit : Nat) (hl : 1 ≤ limit) (n : Nat) :
    (runN o req limit n).coderSuccesses ≤ limit :=
  (sinv_runN o req limit hl n).2.1

/-- Claim C2 (amended) witness: the bound at a concrete behaviour, limit and
step count. -/
theorem develop_successful_coder_calls_le_limit_witness :
    1 ≤ 2 ∧ (runN steadyOracles ("hello".toList) 2 8).coderSuccesses ≤ 2 :=
  ⟨by decide, develop_successful_coder_calls_le_limit steadyOracles ("hello".toList) 2
    (by decide) 8⟩

theorem pyFence_head : pyFence.head? = some btChar := by decide

theorem fenceMark_head : fenceMark.head? = some btChar := by decide

/-- Splitting at a separator sitting at the front of the text. -/
theorem splitFirst_sep_append (sep r : List Char) (hs : sep ≠ []) :
    splitFirst sep (sep ++ r) = some ([], r) := by
  cases sep with
  | nil => exact absurd rfl hs
  | cons a t =>
    have hpre : (a :: t).isPrefixOf (a :: t ++ r) = true :=
      List.isPrefixOf_iff_prefix.mpr (List.prefix_append _ _)
    rw [List.cons_append]
    rw [List.cons_append] at hpre
    simp only [splitFirst, hpre, if_true]
    rw [← List.cons_append, List.drop_left]

/-- A backtick-free prefix cannot contain or start an occurrence of a
separator that begins with a backtick, so splitting skips over it. -/
theorem splitFirst_append_btFree (sep pre s : List Char)
    (hhd : sep.head? = some btChar) (hpre : btFree pre) :
    splitFirst sep (pre ++ s)
      = (splitFirst sep s).map (fun pq => (pre ++ pq.1, pq.2)) := by
  induction pre with
  | nil =>
    simp only [List.nil_append]
    cases h : splitFirst sep s <;> simp
  | cons c p ih =>
    have hc : c ≠ btChar := hpre c (List.mem_cons_self c p)
    have hpf : sep.isPrefixOf (c :: (p ++ s)) = false := by
      cases sep with
      | nil => cases hhd
      | cons a t =>
        have ha : a = btChar := by simpa using hhd
        show ((a == c) && t.isPrefixOf (p ++ s)) = false
        have : (a == c) = false := by
          rw [ha]
          exact beq_eq_false_iff_ne.mpr fun h => hc h.symm
        simp [this]
    have heq : splitFirst sep (c :: (p ++ s))
        = (splitFirst sep (p ++ s)).map (fun pq => (c :: pq.1, pq.2)) := by
      rw [splitFirst, if_neg (by simp [hpf])]
    rw [List.cons_append, heq, ih (fun d hd => hpre d (List.mem_cons_of_mem c hd))]
    cases h : splitFirst sep s <;> simp

/-- A separator occurs in a text exactly when the text decomposes around it. -/
theorem containsSub_iff_append (sep s : List Char) (hs : sep ≠ []) :
    containsSub sep s = true ↔ ∃ a b, s = a ++ sep ++ b := by
  induction s with
  | nil =>
    have h0 : splitFirst sep [] = none := by
      cases sep with
      | nil => exact absurd rfl hs
      | cons a t => rfl
    constructor
    · intro h
      rw [containsSub, h0] at h
      cases h
    · rintro ⟨a, b, hab⟩
      exfalso
      have := congrArg List.length hab
      simp at this
      exact hs (List.eq_nil_of_length_eq_zero (by omega))
  | cons c t ih =>
    by_cases hp : sep.isPrefixOf (c :: t) = true
    · constructor
      · intro _
        obtain ⟨b, hb⟩ := List.isPrefixOf_iff_prefix.mp hp
        exact ⟨[], b, by simp [← hb]⟩
      · intro _
        rw [containsSub, splitFirst, if_pos hp]
        rfl
    · have heq : splitFirst sep (c :: t)
          = (splitFirst sep t).map (fun pq => (c :: pq.1, pq.2)) := by
        rw [splitFirst, if_neg hp]
      constructor
      · intro h
        rw [containsSub, heq, Option.isSome_map'] at h
        obtain ⟨a, b, hab⟩ := ih.mp h
        exact ⟨c :: a, b, by simp [hab]⟩
      · rintro ⟨a, b, hab⟩
        rw [containsSub, heq, Option.isSome_map']
        cases a with
        | nil =>
          exfalso
          apply hp
          simp only [List.nil_append] at hab
          exact List.isPrefixOf_iff_prefix.mpr ⟨b, by rw [← hab]⟩
        | cons c2 a2 =>
          have hct : c = c2 ∧ t = a2 ++ sep ++ b := by
            simpa using hab
          exact ih.mpr ⟨a2, b, hct.2⟩

/-- An occurrence of the python fence opener contains an occurrence of the
plain fence marker. -/
theorem containsSub_pyFence_imp (t : List Char) (h : containsSub pyFence t = true) :
    containsSub fenceMark t = true := by
  obtain ⟨a, b, hab⟩ := (containsSub_iff_append pyFence t (by decide)).mp h
  refine (containsSub_iff_append fenceMark t (by decide)).mpr
    ⟨a, "python".toList ++ b, ?_⟩
  have hsplit : pyFence = fenceMark ++ "python".toList := by decide
  rw [hab, hsplit]
  simp [List.append_assoc]

/-- The head surviving `dropWhile` fails the predicate. -/
theorem dropWhile_eq_cons_head (p : Char → Bool) (l : List Char) (c : Char)
    (t : List Char) (h : l.dropWhile p = c :: t) : p c = false := by
  induction l with
  | nil => cases h
  | cons a l ih =>
    rw [List.dropWhile_cons] at h
    split_ifs at h with ha
    · exact ih h
    · have hac : a = c := by injection h with h1 h2
      rw [← hac]
      simpa using ha

/-- Dropping a prefix twice is the same as dropping it once. -/
theorem dropWhile_idem (p : Char → Bool) (l : List Char) :
    (l.dropWhile p).dropWhile p = l.dropWhile p := by
  cases h : l.dropWhile p with
  | nil => rfl
  | cons c t =>
    rw [List.dropWhile_cons, if_neg]
    simp [dropWhile_eq_cons_head p l c t h]

/-- `dropWhile` only removes a prefix. -/
theorem exists_append_dropWhile (p : Char → Bool) (l : List Char) :
    ∃ t, t ++ l.dropWhile p = l := by
  induction l with
  | nil => exact ⟨[], rfl⟩
  | cons a l ih =>
    rw [List.dropWhile_cons]
    split_ifs with ha
    · obtain ⟨t, ht⟩ := ih
      exact ⟨a :: t, by simp [ht]⟩
    · exact ⟨[], rfl⟩

/-- Left stripping stops at the first non-whitespace character, so it passes
over an appended tail that starts with one. -/
theorem stripLeft_append_head (pre r : List Char) (c : Char) (hr : r.head? = some c)
    (hc : isPySpace c = false) : stripLeft (pre ++ r) = stripLeft pre ++ r := by
  induction pre with
  | nil =>
    cases r with
    | nil => cases hr
    | cons a t =>
      have hac : a = c := by simpa using hr
      subst hac
      simp [stripLeft, List.dropWhile_cons, hc]
  | cons a p ih =>
    rw [List.cons_append]
    simp only [stripLeft, List.dropWhile_cons]
    split_ifs with ha
    · exact ih
    · rfl

/-- Left stripping is idempotent. -/
theorem stripLeft_idem (l : List Char) : stripLeft (stripLeft l) = stripLeft l :=
  dropWhile_idem isPySpace l

/-- Left stripping only removes a prefix. -/
theorem exists_append_stripLeft (l : List Char) : ∃ t, t ++ stripLeft l = l :=
  exists_append_dropWhile isPySpace l

/-- The head surviving a left strip is not whitespace. -/
theorem stripLeft_eq_cons_head (l : List Char) (c : Char) (t : List Char)
    (h : stripLeft l = c :: t) : isPySpace c = false :=
  dropWhile_eq_cons_head isPySpace l c t h

/-- Python's `strip` is idempotent. -/
theorem strip_idem (l : List Char) : strip (strip l) = strip l := by
  unfold strip
  cases hv : stripLeft ((stripLeft l).reverse) with
  | nil => simp [stripLeft]
  | cons c t =>
    obtain ⟨w, hw⟩ := exists_append_stripLeft ((stripLeft l).reverse)
    rw [hv] at hw
    have hune : stripLeft l ≠ [] := by
      intro h0
      rw [h0] at hw
      simp at hw
    obtain ⟨c2, t2, hu2⟩ : ∃ c2 t2, stripLeft l = c2 :: t2 := by
      cases hu0 : stripLeft l with
      | nil => exact absurd hu0 hune
      | cons a b => exact ⟨a, b, rfl⟩
    have hpc2 : isPySpace c2 = false := stripLeft_eq_cons_head _ _ _ hu2
    have hrev : (c :: t).reverse ++ w.reverse = c2 :: t2 := by
      rw [← hu2, ← List.reverse_reverse (stripLeft l), ← hw]
      simp [List.reverse_append]
    obtain ⟨d, u2, hd⟩ : ∃ d u2, (c :: t).reverse = d :: u2 := by
      cases hx : (c :: t).reverse with
      | nil =>
        exfalso
        have := congrArg List.length hx
        simp at this
      | cons d u2 => exact ⟨d, u2, rfl⟩
    have hdc2 : d = c2 := by
      rw [hd, List.cons_append] at hrev
      injection hrev with h1 h2
    have hps : stripLeft ((c :: t).reverse) = (c :: t).reverse := by
      rw [hd]
      unfold stripLeft
      rw [List.dropWhile_cons, if_neg (by rw [hdc2]; simp [hpc2])]
    have hct : stripLeft (c :: t) = c :: t := by
      have hidem := stripLeft_idem ((stripLeft l).reverse)
      rw [hv] at hidem
      exact hidem
    rw [hps, List.reverse_reverse, hct]

/-- Extraction on a fence-free completion is the trimmed completion. -/
theorem extractCode_no_fence (s : List Char)
    (h : containsSub fenceMark (strip s) = false) : extractCode s = strip s := by
  have hpy : containsSub pyFence (strip s) = false := by
    cases hp : containsSub pyFence (strip s)
    · rfl
    · exact absurd (containsSub_pyFence_imp _ hp) (by simp [h])
  unfold extractCode
  rw [if_neg (by simp [hpy]), if_neg (by simp [h])]

/-- The spelled-out shape of `strip` around a backtick-delimited core: the
leading whitespace of `pre` and the trailing whitespace of `post` go, nothing
else moves. -/
theorem strip_around_fences (pre mid post : List Char) :
    strip (pre ++ pyFence ++ mid ++ fenceMark ++ post)
      = stripLeft pre
          ++ (pyFence ++ (mid ++ (fenceMark ++ (stripLeft post.reverse).reverse))) := by
  have hpy : pyFence = btChar :: ("``python".toList) := by decide
  have hfmr : fenceMark.reverse = btChar :: ("``".toList) := by decide
  have h1 : stripLeft (pre ++ (pyFence ++ (mid ++ (fenceMark ++ post))))
      = stripLeft pre ++ (pyFence ++ (mid ++ (fenceMark ++ post))) := by
    refine stripLeft_append_head pre _ btChar ?_ (by decide)
    rw [hpy]
    rfl
  have h2 : stripLeft (post.reverse
        ++ (fenceMark.reverse ++ (mid.reverse ++ (pyFence.reverse ++ (stripLeft pre).reverse))))
      = stripLeft post.reverse
        ++ (fenceMark.reverse ++ (mid.reverse ++ (pyFence.reverse ++ (stripLeft pre).reverse))) := by
    refine stripLeft_append_head post.reverse _ btChar ?_ (by decide)
    rw [hfmr]
    rfl
  unfold strip
  rw [show pre ++ pyFence ++ mid ++ fenceMark ++ post
        = pre ++ (pyFence ++ (mid ++ (fenceMark ++ post))) from by simp [List.append_assoc]]
  rw [h1]
  rw [show (stripLeft pre ++ (pyFence ++ (mid ++ (fenceMark ++ post)))).reverse
        = post.reverse ++ (fenceMark.reverse
            ++ (mid.reverse ++ (pyFence.reverse ++ (stripLeft pre).reverse))) from by
      simp [List.reverse_append, List.append_assoc]]
  rw [h2]
  simp [List.reverse_append, List.append_assoc]

/-- Extraction around a python fence: everything before the opening
`"```python"` and after the closing fence is discarded, and the enclosed block
is trimmed — provided neither the leading narrative nor the block contains a
backtick. -/
theorem extractCode_python_fence (pre mid post : List Char)
    (hpre : btFree pre) (hmid : btFree mid) :
    extractCode (pre ++ pyFence ++ mid ++ fenceMark ++ post) = strip mid := by
  have hP : btFree (stripLeft pre) := by
    obtain ⟨t, ht⟩ := exists_append_stripLeft pre
    intro x hx
    exact hpre x (by rw [← ht]; exact List.mem_append_right t hx)
  have hstrip := strip_around_fences pre mid post
  have hsplit1 : splitFirst pyFence (stripLeft pre
        ++ (pyFence ++ (mid ++ (fenceMark ++ (stripLeft post.reverse).reverse))))
      = some (stripLeft pre, mid ++ (fenceMark ++ (stripLeft post.reverse).reverse)) := by
    rw [splitFirst_append_btFree pyFence _ _ pyFence_head hP,
      splitFirst_sep_append pyFence _ (by decide)]
    simp
  have hsplit2 : splitFirst fenceMark (mid ++ (fenceMark ++ (stripLeft post.reverse).reverse))
      = some (mid, (stripLeft post.reverse).reverse) := by
    rw [splitFirst_append_btFree fenceMark _ _ fenceMark_head hmid,
      splitFirst_sep_append fenceMark _ (by decide)]
    simp
  have hc1 : containsSub pyFence (strip (pre ++ pyFence ++ mid ++ fenceMark ++ post))
      = true := by
    rw [hstrip, containsSub, hsplit1]
    rfl
  unfold extractCode
  rw [if_pos (by rw [hc1])]
  rw [hstrip]
  rw [afterFirst, hsplit1]
  rw [upToFirst, hsplit2]

/-- Counterexample to claim C4: on a completion whose first fenced block is a
plain fence (containing `foo`) and whose second is a python-tagged fence
(containing `bar`), extraction returns `bar` — the `"```python"` branch is
preferred over the earlier plain fence — so the result is not the first
fenced block's contents. -/
theorem extract_not_first_fenced_block :
    extractCode mixedFenceCompletion = ("bar".toList) ∧
    firstFencedBlockContents mixedFenceCompletion = some ("foo".toList) ∧
    some (extractCode mixedFenceCompletion)
      ≠ firstFencedBlockContents mixedFenceCompletion := by decide

/-- Claim C4 (amended): the spec's example extracts to exactly `print(1)`; a
completion with no fence marker extracts to its trimmed text, idempotently;
and when a `"```python"` fence occurs, extraction returns the trimmed text
between the first `"```python"` and the following fence marker — even when a
plain fenced block occurs earlier in the completion, as the counterexample
shows. -/
theorem extraction_rules :
    extractCode exampleCompletion = ("print(1)".toList) ∧
    (∀ s : List Char, containsSub fenceMark (strip s) = false →
      extractCode s = strip s ∧ extractCode (strip s) = strip s) ∧
    (∀ pre mid post : List Char, btFree pre → btFree mid →
      extractCode (pre ++ pyFence ++ mid ++ fenceMark ++ post) = strip mid) := by
  refine ⟨by decide, ?_, extractCode_python_fence⟩
  intro s h
  refine ⟨extractCode_no_fence s h, ?_⟩
  have h2 : containsSub fenceMark (strip (strip s)) = false := by
    rw [strip_idem]
    exact h
  rw [extractCode_no_fence (strip s) h2, strip_idem]

/-- Claim C4 (amended) witness: the fence-free and python-fence rules at
concrete inputs. -/
theorem extraction_rules_witness :
    extractCode ("  x = 1\n".toList) = strip ("  x = 1\n".toList) ∧
    extractCode (("intro: ".toList) ++ pyFence ++ (" \ny = 2\n".toList)
        ++ fenceMark ++ (" bye".toList))
      = strip (" \ny = 2\n".toList) :=
  ⟨(extraction_rules.2.1 ("  x = 1\n".toList) (by decide)).1,
   extraction_rules.2.2 ("intro: ".toList) (" \ny = 2\n".toList) (" bye".toList)
     (by unfold btFree; decide) (by unfold btFree; decide)⟩
